import Mathlib

/-!
Verification of the CSV ingestion routine of the solar-database scripts
(`utils.py`): column-name mapping, timestamp-based row dropping, defensive
numeric/string coercion (`_safe_float`, `_safe_str`) and chunked transactional
insertion (`ingest_electrical_csv`).

The embedding is shallow: Python values are modelled by `PyVal`, Python floats
by `PFloat` (a rational together with nan and the two infinities), the pandas
datetime parser `pd.to_datetime ∘ strftime` and the storage layer's
success/failure behaviour are parameters of the ingestion function.  Machine
floating point is idealised by rationals; none of the properties proved below
depend on rounding.
-/

/-- Model of a Python float value: nan, the infinities, or a finite value
(idealised as a rational; `_safe_float` performs no arithmetic, so no rounding
behaviour is lost). -/
inductive PFloat where
  | nan : PFloat
  | inf : PFloat
  | ninf : PFloat
  | val : ℚ → PFloat
deriving DecidableEq

/-- Model of the Python values that can appear in a pandas cell or be passed
to the coercion helpers: `None`, a float, a string, or an int. -/
inductive PyVal where
  | pnone : PyVal
  | pfloat : PFloat → PyVal
  | pstr : String → PyVal
  | pint : Int → PyVal
deriving DecidableEq

/-- ASCII decimal digits. -/
def isDigitC (c : Char) : Bool :=
  c == '0' || c == '1' || c == '2' || c == '3' || c == '4' ||
  c == '5' || c == '6' || c == '7' || c == '8' || c == '9'

/-- Numeric value of an ASCII digit. -/
def digitVal (c : Char) : Nat :=
  if c = '0' then 0 else if c = '1' then 1 else if c = '2' then 2
  else if c = '3' then 3 else if c = '4' then 4 else if c = '5' then 5
  else if c = '6' then 6 else if c = '7' then 7 else if c = '8' then 8
  else if c = '9' then 9 else 0

/-- Value of a digit string read left to right. -/
def digitsToNat (ds : List Char) : Nat :=
  ds.foldl (fun a c => 10 * a + digitVal c) 0

/-- The whitespace characters stripped by Python's `str.strip` (ASCII part;
the claims never involve non-ASCII whitespace). -/
def isWsC (c : Char) : Bool :=
  c == ' ' || c == '\t' || c == '\n' || c == '\x0d' || c == '\x0b' || c == '\x0c'

/-- The upper-to-lower table of ASCII letters. -/
def lowerPairs : List (Char × Char) :=
  [('A', 'a'), ('B', 'b'), ('C', 'c'), ('D', 'd'), ('E', 'e'), ('F', 'f'),
   ('G', 'g'), ('H', 'h'), ('I', 'i'), ('J', 'j'), ('K', 'k'), ('L', 'l'),
   ('M', 'm'), ('N', 'n'), ('O', 'o'), ('P', 'p'), ('Q', 'q'), ('R', 'r'),
   ('S', 's'), ('T', 't'), ('U', 'u'), ('V', 'v'), ('W', 'w'), ('X', 'x'),
   ('Y', 'y'), ('Z', 'z')]

/-- ASCII lower-casing of one character, as done by `str.lower` on the
ASCII range (the column names and sentinel words of the program are ASCII). -/
def lowerChar (c : Char) : Char :=
  match lowerPairs.find? (fun p => p.1 == c) with
  | some p => p.2
  | none => c

/-- `str.lower`. -/
def lowerStr (s : String) : String := ⟨s.data.map lowerChar⟩

/-- Strip leading and trailing whitespace from a character list. -/
def trimChars (cs : List Char) : List Char :=
  ((cs.dropWhile isWsC).reverse.dropWhile isWsC).reverse

/-- `str.strip()`. -/
def pyStrip (s : String) : String := ⟨trimChars s.data⟩

/-- `s.replace(",", ".")`: for a one-character pattern, Python's replace-all
is exactly a character-wise map. -/
def commaToDot (s : String) : String :=
  ⟨s.data.map (fun c => if c = ',' then '.' else c)⟩

/-- Rendering of a float by `str`.  Only the nan/inf spellings matter to the
program (they feed the sentinel test of `_safe_float`); the rendering of a
finite value approximates Python's shortest-repr and no theorem depends on
that case. -/
def pfloatStr : PFloat → String
  | PFloat.nan => "nan"
  | PFloat.inf => "inf"
  | PFloat.ninf => "-inf"
  | PFloat.val q => if q.den = 1 then toString q.num ++ ".0" else toString q

/-- Python `str(x)` on the modelled values. -/
def pyStr : PyVal → String
  | PyVal.pnone => "None"
  | PyVal.pfloat f => pfloatStr f
  | PyVal.pstr s => s
  | PyVal.pint n => toString n

/-- Exponent part of a float literal: an optional sign followed by at least
one digit, consuming the whole remainder. -/
def parseExpChars (cs : List Char) : Option Int :=
  let sgn : Int := if cs.head? == some '-' then -1 else 1
  let ds : List Char :=
    if cs.head? == some '-' || cs.head? == some '+' then cs.tail else cs
  if !ds.isEmpty && ds.all isDigitC then some (sgn * (digitsToNat ds : Int)) else none

/-- Mantissa of a float literal: `digits`, `digits.digits?` or `.digits`,
returning its value and the unconsumed remainder. -/
def parseMantissa (cs : List Char) : Option (ℚ × List Char) :=
  let ip := cs.takeWhile isDigitC
  let r1 := cs.dropWhile isDigitC
  if r1.head? == some '.' then
    let r2 := r1.tail
    let fp := r2.takeWhile isDigitC
    let r3 := r2.dropWhile isDigitC
    if ip.isEmpty && fp.isEmpty then none
    else some ((digitsToNat ip : ℚ) + (digitsToNat fp : ℚ) / (10 : ℚ) ^ fp.length, r3)
  else
    if ip.isEmpty then none else some ((digitsToNat ip : ℚ), r1)

/-- Model of Python's `float(s)` on a character list: strip whitespace, an
optional sign, then an inf/nan spelling or a decimal mantissa with optional
exponent.  Digit-group underscores are not modelled (no input of the program
reaches them). -/
def pyFloatParseChars (cs0 : List Char) : Option PFloat :=
  let cs1 := trimChars cs0
  let neg : Bool := cs1.head? == some '-'
  let cs : List Char :=
    if cs1.head? == some '-' || cs1.head? == some '+' then cs1.tail else cs1
  let lw := cs.map lowerChar
  if lw == "inf".data || lw == "infinity".data then
    some (if neg then PFloat.ninf else PFloat.inf)
  else if lw == "nan".data then some PFloat.nan
  else
    match parseMantissa cs with
    | none => none
    | some (m, rest) =>
      match rest with
      | [] => some (PFloat.val (if neg then -m else m))
      | e :: r2 =>
        if e == 'e' || e == 'E' then
          match parseExpChars r2 with
          | some ex => some (PFloat.val ((if neg then -m else m) * (10 : ℚ) ^ ex))
          | none => none
        else none

/-- Model of Python's `float(s)`. -/
def pyFloatParse (s : String) : Option PFloat := pyFloatParseChars s.data

/-- `_safe_float` from `utils.py`: `None` and float inputs pass through, a
stripped string that is empty or a nan/none/null sentinel (case-insensitive)
gives `None`, otherwise commas become periods and the string is given to
`float`, any failure giving `None`.  Totality of the Lean function is the
never-raises contract. -/
def _safe_float (x : PyVal) : Option PFloat :=
  match x with
  | PyVal.pnone => none
  | PyVal.pfloat f => some f
  | x =>
    let s := pyStrip (pyStr x)
    if s == "" || lowerStr s == "nan" || lowerStr s == "none" || lowerStr s == "null" then none
    else pyFloatParse (commaToDot s)

/-- `_safe_str` from `utils.py`: `None` gives `None`, otherwise the stripped
string unless it is empty. -/
def _safe_str (x : PyVal) : Option String :=
  match x with
  | PyVal.pnone => none
  | x =>
    let s := pyStrip (pyStr x)
    if s == "" then none else some s

/-- Modelled from the spec: the decimal-number shape
`\s*-?\d+([.,]\d+)?\s*` used by the spec's testable property for numeric
fields (an optional sign, digits, optionally one comma-or-period separator
followed by digits, surrounded by optional whitespace). -/
def decimalShape (s : String) : Bool :=
  let t := trimChars s.data
  let u : List Char := if t.head? == some '-' then t.tail else t
  let ip := u.takeWhile isDigitC
  let r1 := u.dropWhile isDigitC
  !ip.isEmpty &&
    (r1.isEmpty ||
      ((r1.head? == some '.' || r1.head? == some ',') &&
        !r1.tail.isEmpty && r1.tail.all isDigitC))

/-- Modelled from the spec: the real number denoted by a string of the
decimal-number shape, comma read as a decimal period. -/
def decimalValue (s : String) : ℚ :=
  let t := trimChars s.data
  let neg : Bool := t.head? == some '-'
  let u : List Char := if t.head? == some '-' then t.tail else t
  let ip := u.takeWhile isDigitC
  let r1 := u.dropWhile isDigitC
  let fp : List Char := r1.tail
  let m : ℚ := (digitsToNat ip : ℚ) + (digitsToNat fp : ℚ) / (10 : ℚ) ^ fp.length
  if neg then -m else m

/-- The default column mapping of `ingest_electrical_csv`, in source order.
The key `power_kW` is kept verbatim: it is a distinct dictionary key in the
source even though the lower-cased lookup can never produce it. -/
def default_map : List (String × String) :=
  [("timestamp", "timestamp"), ("time", "timestamp"), ("datetime", "timestamp"),
   ("power_kw", "power_kw"), ("power_kw_avg", "power_kw"), ("power", "power_kw"),
   ("power_kW", "power_kw"),
   ("voltage_v", "voltage_v"), ("voltage", "voltage_v"),
   ("current_a", "current_a"), ("current", "current_a"),
   ("energy_kwh", "energy_kwh"), ("energy", "energy_kwh"),
   ("status", "status")]

/-- Exact-key dictionary lookup (Python `k in d` / `d[k]` on a
duplicate-free association list). -/
def alookup : List (String × String) → String → Option String
  | [], _ => none
  | p :: rest, k => if p.1 = k then some p.2 else alookup rest k

/-- Lookup in `{**default_map, **col_mappings}`: an override entry wins over
a default entry with the same key; a falsy (absent or empty) override dict
leaves the defaults unchanged. -/
def combinedLookup (ov : Option (List (String × String))) (k : String) : Option String :=
  match ov with
  | none => alookup default_map k
  | some m =>
    match alookup m k with
    | some v => some v
    | none => alookup default_map k

/-- The target column names of the `electrical_data` table used by the
exact-match fallback of the header loop. -/
def targetCols : List String :=
  ["timestamp", "power_kw", "voltage_v", "current_a", "energy_kwh", "status"]

/-- One iteration of the header loop of `ingest_electrical_csv`: lower-case
the (already stripped) header, look it up in the combined mapping, else admit
it if it is itself a target column name, else drop it. -/
def resolveHeader (ov : Option (List (String × String))) (c : String) : Option String :=
  let lower := lowerStr c
  match combinedLookup ov lower with
  | some t => some t
  | none => if lower ∈ targetCols then some lower else none

/-- `[c.strip() for c in chunk_df.columns]`. -/
def trimmedHeaders (headers : List String) : List String := headers.map pyStrip

/-- The `col_map_existing` dictionary, as the (header-ordered, duplicate-free)
list of resolved `(source header, target column)` pairs. -/
def colMapExisting (ov : Option (List (String × String))) (headers : List String) :
    List (String × String) :=
  headers.filterMap (fun c => (resolveHeader ov c).map (fun t => (c, t)))

/-- The source column whose values end up in target column `t` of
`df_to_insert`: assignments run in mapping order, so the last source header
resolving to `t` wins. -/
def lastSrcFor (colMap : List (String × String)) (t : String) : Option String :=
  colMap.foldl (fun acc p => if p.2 = t then some p.1 else acc) none

/-- Index of a header in the header row (headers are duplicate-free: pandas
mangles duplicated column names before this code runs). -/
def idxOf : List String → String → Option Nat
  | [], _ => none
  | h :: rest, k => if h = k then some 0 else (idxOf rest k).map (fun i => i + 1)

/-- The cell of `row` lying in source column `src`. -/
def cellOf (headers : List String) (row : List PyVal) (src : String) : PyVal :=
  match idxOf headers src with
  | some i => row.getD i PyVal.pnone
  | none => PyVal.pnone

/-- The cell of `row` feeding target column `t` of `df_to_insert`; a target
column no source header resolves to was filled with `None`
(`df_to_insert[col] = None`). -/
def targetCell (colMap : List (String × String)) (headers : List String)
    (row : List PyVal) (t : String) : PyVal :=
  match lastSrcFor colMap t with
  | some src => cellOf headers row src
  | none => PyVal.pnone

/-- Modelled from the spec: case-insensitive lookup in an association list,
first entry whose key matches the probe up to case. -/
def ciLookup : List (String × String) → String → Option String
  | [], _ => none
  | p :: rest, k => if lowerStr p.1 = lowerStr k then some p.2 else ciLookup rest k

/-- Modelled from the spec: resolve a header "via case-insensitive lookup in
the effective mapping (overrides merged over defaults, override wins on
conflict); headers that already exactly match a target attribute name pass
through unchanged; unresolved headers are dropped". -/
def resolveHeaderSpec (ov : Option (List (String × String))) (c : String) : Option String :=
  let overrideHit : Option String := match ov with
    | none => none
    | some m => ciLookup m c
  match overrideHit with
  | some t => some t
  | none =>
    match ciLookup default_map c with
    | some t => some t
    | none => if c ∈ targetCols then some c else none

/-- One row of the `electrical_data` table as bound by the INSERT statement
(the auto-increment id and the storage-defaulted insertion timestamp are
owned by the storage layer). -/
structure Row where
  system_id : Int
  timestamp : String
  power_kw : Option PFloat
  voltage_v : Option PFloat
  current_a : Option PFloat
  energy_kwh : Option PFloat
  status : Option String
deriving DecidableEq

/-- The observable diagnostic side effects of the ingestion (the `print`
calls): per-chunk dropped-row counts, per-chunk insertion counts with the
running total, and the final total line. -/
inductive LogEvent where
  | droppedRows : Nat → LogEvent
  | insertedChunk : Nat → Nat → LogEvent
  | finished : Nat → LogEvent
deriving DecidableEq

/-- The exceptions `ingest_electrical_csv` can raise: the pandas ImportError,
the FileNotFoundError, the ValueError for an unrecognised timestamp column
(the spec's SchemaError) and the RuntimeError wrapping a storage failure
(the spec's PersistenceError). -/
inductive IngestError where
  | importError : IngestError
  | fileNotFound : IngestError
  | schemaError : IngestError
  | persistenceError : IngestError
deriving DecidableEq

instance {ε α : Type} [DecidableEq ε] [DecidableEq α] : DecidableEq (Except ε α) := fun x y =>
  match x, y with
  | Except.ok a, Except.ok b =>
    if h : a = b then isTrue (by rw [h]) else isFalse (by intro he; cases he; exact h rfl)
  | Except.error a, Except.error b =>
    if h : a = b then isTrue (by rw [h]) else isFalse (by intro he; cases he; exact h rfl)
  | Except.ok _, Except.error _ => isFalse (by intro h; cases h)
  | Except.error _, Except.ok _ => isFalse (by intro h; cases h)

/-- Everything observable about one run of `ingest_electrical_csv`: the value
returned or the exception raised, the committed rows of `electrical_data`,
whether the opened connection is still open when the run ends, and the
diagnostic output. -/
structure Outcome where
  result : Except IngestError (Option Nat)
  db : List Row
  connOpen : Bool
  logs : List LogEvent
deriving DecidableEq

/-- The formatted timestamp of a row, if its timestamp cell parses:
`pd.to_datetime(_, errors="coerce")` followed by
`strftime("%Y-%m-%d %H:%M:%S")`, supplied as the parameter `parseTs`. -/
def rowTimestamp (parseTs : PyVal → Option String) (colMap : List (String × String))
    (headers : List String) (r : List PyVal) : Option String :=
  parseTs (targetCell colMap headers r "timestamp")

/-- The tuple bound for one surviving row of a chunk. -/
def buildRow (sysid : Int) (colMap : List (String × String)) (headers : List String)
    (ts : String) (r : List PyVal) : Row :=
  { system_id := sysid
    timestamp := ts
    power_kw := _safe_float (targetCell colMap headers r "power_kw")
    voltage_v := _safe_float (targetCell colMap headers r "voltage_v")
    current_a := _safe_float (targetCell colMap headers r "current_a")
    energy_kwh := _safe_float (targetCell colMap headers r "energy_kwh")
    status := _safe_str (targetCell colMap headers r "status") }

/-- The `rows` list built from one chunk: rows whose timestamp fails to parse
are dropped, the rest are coerced and bound. -/
def chunkNewRows (parseTs : PyVal → Option String) (sysid : Int)
    (colMap : List (String × String)) (headers : List String)
    (chunk : List (List PyVal)) : List Row :=
  chunk.filterMap (fun r =>
    (rowTimestamp parseTs colMap headers r).map (fun ts => buildRow sysid colMap headers ts r))

/-- Fuel-driven chunking (structural recursion so that the kernel can
evaluate concrete runs); `chunkList` instantiates the fuel with the list
length, which suffices for every positive chunk size. -/
def chunkListF (fuel : Nat) (n : Nat) (xs : List α) : List (List α) :=
  match fuel, xs with
  | _, [] => []
  | 0, _ => []
  | f + 1, xs => xs.take n :: chunkListF f n (xs.drop n)

/-- The successive chunks of at most `n` rows delivered by
`pd.read_csv(..., chunksize=n, iterator=True)`; a file with no data rows
yields no chunk.  pandas rejects `chunksize = 0`, so every theorem below
assumes `0 < n`. -/
def chunkList (n : Nat) (xs : List α) : List (List α) := chunkListF xs.length n xs

/-- Concatenation of a list of lists. -/
def flat : List (List α) → List α
  | [] => []
  | xs :: rest => xs ++ flat rest

/-- Sum of a list of naturals. -/
def natSum : List Nat → Nat
  | [] => 0
  | n :: rest => n + natSum rest

/-- Total number of dropped rows reported in the diagnostic output. -/
def droppedLogTotal : List LogEvent → Nat
  | [] => 0
  | LogEvent.droppedRows n :: rest => n + droppedLogTotal rest
  | _ :: rest => droppedLogTotal rest

/-- Number of rows of `rs` whose timestamp cell fails to parse. -/
def countBadTs (parseTs : PyVal → Option String) (colMap : List (String × String))
    (headers : List String) (rs : List (List PyVal)) : Nat :=
  (rs.filter (fun r => (rowTimestamp parseTs colMap headers r).isNone)).length

/-- The chunk loop of `ingest_electrical_csv`.  `insertFails k` is the
storage layer's behaviour on the `k`-th insertion transaction (`True`: the
`executemany`/`commit` raises, and the rollback restores the pre-chunk
state).  On a storage failure the RuntimeError propagates and — as in the
source, whose `conn.close()` is only reached on the success path — the
connection stays open. -/
def runChunks (parseTs : PyVal → Option String) (insertFails : Nat → Bool)
    (ov : Option (List (String × String))) (sysid : Int) (headers : List String) :
    List (List (List PyVal)) → Nat → Nat → List Row → List LogEvent → Outcome
  | [], _, total, db, logs =>
    { result := Except.ok none, db := db, connOpen := false
      logs := logs ++ [LogEvent.finished total] }
  | chunk :: rest, idx, total, db, logs =>
    let hs := trimmedHeaders headers
    let colMap := colMapExisting ov hs
    if colMap.any (fun p => p.2 == "timestamp") then
      let newRows := chunkNewRows parseTs sysid colMap hs chunk
      let logs1 := if newRows.length < chunk.length then
          logs ++ [LogEvent.droppedRows (chunk.length - newRows.length)]
        else logs
      if insertFails idx then
        { result := Except.error IngestError.persistenceError, db := db
          connOpen := true, logs := logs1 }
      else
        runChunks parseTs insertFails ov sysid headers rest (idx + 1)
          (total + newRows.length) (db ++ newRows)
          (logs1 ++ [LogEvent.insertedChunk newRows.length (total + newRows.length)])
    else
      { result := Except.error IngestError.schemaError, db := db
        connOpen := true, logs := logs }

set_option linter.unusedVariables false in
/-- `ingest_electrical_csv` from `utils.py`.  `pandasAvailable` and
`csvExists` model the two preconditions checked before anything else;
`parseTs` and `insertFails` are the pandas datetime parser and the storage
layer; `db0` is the prior content of `electrical_data`; `headers`/`csvRows`
are the parsed CSV; the remaining parameters mirror the Python signature.
The source has no `return` statement, so a successful run returns `None`.
`timestamp_col` is accepted and, exactly as in the source, never read. -/
def ingest_electrical_csv (pandasAvailable : Bool) (csvExists : Bool)
    (parseTs : PyVal → Option String) (insertFails : Nat → Bool)
    (db0 : List Row) (system_id : Int)
    (headers : List String) (csvRows : List (List PyVal))
    (timestamp_col : String) (col_mappings : Option (List (String × String)))
    (chunk_size : Nat) : Outcome :=
  if pandasAvailable = false then
    { result := Except.error IngestError.importError, db := db0, connOpen := false, logs := [] }
  else if csvExists = false then
    { result := Except.error IngestError.fileNotFound, db := db0, connOpen := false, logs := [] }
  else
    runChunks parseTs insertFails col_mappings system_id headers
      (chunkList chunk_size csvRows) 0 0 db0 []

/-! ### List helper lemmas -/

theorem takeWhile_append_all {α : Type} (p : α → Bool) (l1 l2 : List α)
    (h : l1.all p = true) : (l1 ++ l2).takeWhile p = l1 ++ l2.takeWhile p := by
  induction l1 with
  | nil => simp
  | cons a t ih =>
    simp only [List.all_cons, Bool.and_eq_true] at h
    simp [List.takeWhile_cons, h.1, ih h.2]

theorem dropWhile_append_all {α : Type} (p : α → Bool) (l1 l2 : List α)
    (h : l1.all p = true) : (l1 ++ l2).dropWhile p = l2.dropWhile p := by
  induction l1 with
  | nil => simp
  | cons a t ih =>
    simp only [List.all_cons, Bool.and_eq_true] at h
    simp [List.dropWhile_cons, h.1, ih h.2]

theorem takeWhile_all {α : Type} (p : α → Bool) (l : List α)
    (h : l.all p = true) : l.takeWhile p = l := by
  have := takeWhile_append_all p l [] h
  simpa using this

theorem dropWhile_all {α : Type} (p : α → Bool) (l : List α)
    (h : l.all p = true) : l.dropWhile p = [] := by
  have := dropWhile_append_all p l [] h
  simpa using this

theorem dropWhile_eq_self_of_head {α : Type} (p : α → Bool) (l : List α)
    (h : ∀ c, l.head? = some c → p c = false) : l.dropWhile p = l := by
  cases l with
  | nil => rfl
  | cons a t => simp [List.dropWhile_cons, h a rfl]

theorem trimChars_eq_self (cs : List Char)
    (h1 : ∀ c, cs.head? = some c → isWsC c = false)
    (h2 : ∀ c, cs.getLast? = some c → isWsC c = false) : trimChars cs = cs := by
  unfold trimChars
  rw [dropWhile_eq_self_of_head isWsC cs h1]
  rw [dropWhile_eq_self_of_head isWsC cs.reverse (by simpa using h2)]
  exact List.reverse_reverse cs

/-! ### Chunking lemmas -/

theorem chunkListF_congr {α : Type} (n : Nat) (hn : 0 < n) :
    ∀ f1 f2 (xs : List α), xs.length ≤ f1 → xs.length ≤ f2 →
      chunkListF f1 n xs = chunkListF f2 n xs := by
  intro f1
  induction f1 with
  | zero =>
    intro f2 xs h1 _
    have : xs = [] := List.eq_nil_of_length_eq_zero (Nat.le_zero.mp h1)
    subst this
    cases f2 <;> rfl
  | succ f ih =>
    intro f2 xs h1 h2
    cases xs with
    | nil => cases f2 <;> rfl
    | cons a t =>
      cases f2 with
      | zero => simp at h2
      | succ g =>
        simp only [chunkListF]
        have hd : ((a :: t).drop n).length ≤ f := by
          simp only [List.length_drop, List.length_cons] at h1 ⊢
          omega
        have hd2 : ((a :: t).drop n).length ≤ g := by
          simp only [List.length_drop, List.length_cons] at h2 ⊢
          omega
        rw [ih g ((a :: t).drop n) hd hd2]

theorem chunkList_nil {α : Type} (n : Nat) : chunkList n ([] : List α) = [] := rfl

theorem chunkList_cons {α : Type} (n : Nat) (xs : List α) (hn : 0 < n) (hx : xs ≠ []) :
    chunkList n xs = xs.take n :: chunkList n (xs.drop n) := by
  unfold chunkList
  cases xs with
  | nil => exact absurd rfl hx
  | cons a t =>
    simp only [List.length_cons, chunkListF]
    congr 1
    apply chunkListF_congr n hn
    · simp only [List.length_drop, List.length_cons]
      omega
    · exact Nat.le_refl _

theorem chunkList_ne_nil {α : Type} (n : Nat) (xs : List α) (hn : 0 < n) (hx : xs ≠ []) :
    chunkList n xs ≠ [] := by
  rw [chunkList_cons n xs hn hx]
  exact List.cons_ne_nil _ _

theorem flat_chunkList_aux {α : Type} (n : Nat) (hn : 0 < n) :
    ∀ (L : Nat) (xs : List α), xs.length ≤ L → flat (chunkList n xs) = xs := by
  intro L
  induction L with
  | zero =>
    intro xs h
    have : xs = [] := List.eq_nil_of_length_eq_zero (Nat.le_zero.mp h)
    subst this
    rfl
  | succ L ih =>
    intro xs h
    cases xs with
    | nil => rfl
    | cons a t =>
      rw [chunkList_cons n (a :: t) hn (List.cons_ne_nil a t)]
      simp only [flat]
      have hlt : ((a :: t).drop n).length ≤ L := by
        simp only [List.length_drop, List.length_cons] at h ⊢
        omega
      rw [ih _ hlt]
      exact List.take_append_drop n (a :: t)

theorem flat_chunkList {α : Type} (n : Nat) (hn : 0 < n) (xs : List α) :
    flat (chunkList n xs) = xs :=
  flat_chunkList_aux n hn xs.length xs (Nat.le_refl _)

/-! ### Counting lemmas -/

theorem chunkNewRows_length_add (parseTs : PyVal → Option String) (sysid : Int)
    (colMap : List (String × String)) (hs : List String) (chunk : List (List PyVal)) :
    (chunkNewRows parseTs sysid colMap hs chunk).length +
      countBadTs parseTs colMap hs chunk = chunk.length := by
  induction chunk with
  | nil => rfl
  | cons r t ih =>
    cases h : rowTimestamp parseTs colMap hs r with
    | none =>
      simp only [chunkNewRows, countBadTs, List.filterMap_cons, List.filter_cons, h] at ih ⊢
      simp at ih ⊢
      omega
    | some ts =>
      simp only [chunkNewRows, countBadTs, List.filterMap_cons, List.filter_cons, h] at ih ⊢
      simp at ih ⊢
      omega

theorem countBadTs_append (parseTs : PyVal → Option String)
    (colMap : List (String × String)) (hs : List String) (a b : List (List PyVal)) :
    countBadTs parseTs colMap hs (a ++ b) =
      countBadTs parseTs colMap hs a + countBadTs parseTs colMap hs b := by
  simp [countBadTs, List.filter_append]

theorem droppedLogTotal_append (l1 l2 : List LogEvent) :
    droppedLogTotal (l1 ++ l2) = droppedLogTotal l1 + droppedLogTotal l2 := by
  induction l1 with
  | nil => simp [droppedLogTotal]
  | cons e t ih =>
    cases e with
    | droppedRows n =>
      simp only [List.cons_append, droppedLogTotal, List.append_eq, ih]
      omega
    | insertedChunk a b => simp only [List.cons_append, droppedLogTotal, List.append_eq, ih]
    | finished a => simp only [List.cons_append, droppedLogTotal, List.append_eq, ih]

theorem flat_length {α : Type} (xss : List (List α)) :
    (flat xss).length = natSum (xss.map List.length) := by
  induction xss with
  | nil => rfl
  | cons xs rest ih => simp [flat, natSum, ih]

/-! ### Characterizations of the chunk loop -/

theorem runChunks_ok_char (P : PyVal → Option String) (F : Nat → Bool)
    (ov : Option (List (String × String))) (sid : Int) (headers : List String) :
    ∀ (chunks : List (List (List PyVal))) (idx total : Nat) (db : List Row)
      (logs : List LogEvent) (v : Option Nat),
      (runChunks P F ov sid headers chunks idx total db logs).result = Except.ok v →
      v = none ∧
      db.length ≤ (runChunks P F ov sid headers chunks idx total db logs).db.length ∧
      (runChunks P F ov sid headers chunks idx total db logs).logs.getLast? =
        some (LogEvent.finished (total +
          ((runChunks P F ov sid headers chunks idx total db logs).db.length - db.length))) := by
  intro chunks
  induction chunks with
  | nil =>
    intro idx total db logs v h
    simp only [runChunks] at h ⊢
    refine ⟨by injection h with h2; exact h2.symm, Nat.le_refl _, ?_⟩
    rw [List.getLast?_concat]
    simp
  | cons c rest ih =>
    intro idx total db logs v h
    simp only [runChunks] at h ⊢
    cases hS : (colMapExisting ov (trimmedHeaders headers)).any (fun p => p.2 == "timestamp") with
    | false => simp [hS] at h
    | true =>
      simp only [hS, if_true] at h ⊢
      cases hF : F idx with
      | true => simp [hF] at h
      | false =>
        simp only [hF, Bool.false_eq_true, if_false] at h ⊢
        obtain ⟨h1, h2, h3⟩ := ih _ _ _ _ _ h
        rw [List.length_append] at h2
        refine ⟨h1, by omega, ?_⟩
        rw [h3]
        congr 2
        rw [List.length_append]
        omega

theorem runChunks_success (P : PyVal → Option String) (F : Nat → Bool)
    (ov : Option (List (String × String))) (sid : Int) (headers : List String)
    (hS : (colMapExisting ov (trimmedHeaders headers)).any (fun p => p.2 == "timestamp") = true) :
    ∀ (chunks : List (List (List PyVal))) (idx total : Nat) (db : List Row)
      (logs : List LogEvent),
      (∀ j, j < chunks.length → F (idx + j) = false) →
      (runChunks P F ov sid headers chunks idx total db logs).result = Except.ok none ∧
      (runChunks P F ov sid headers chunks idx total db logs).db =
        db ++ flat (chunks.map (chunkNewRows P sid
          (colMapExisting ov (trimmedHeaders headers)) (trimmedHeaders headers))) ∧
      droppedLogTotal (runChunks P F ov sid headers chunks idx total db logs).logs =
        droppedLogTotal logs +
          countBadTs P (colMapExisting ov (trimmedHeaders headers)) (trimmedHeaders headers)
            (flat chunks) := by
  intro chunks
  induction chunks with
  | nil =>
    intro idx total db logs hF
    simp only [runChunks, List.map_nil, flat]
    refine ⟨trivial, by simp, ?_⟩
    rw [droppedLogTotal_append]
    simp [droppedLogTotal, countBadTs]
  | cons c rest ih =>
    intro idx total db logs hF
    have hF0 : F idx = false := by
      have := hF 0 (by simp)
      simpa using this
    have hFs : ∀ j, j < rest.length → F (idx + 1 + j) = false := by
      intro j hj
      have := hF (j + 1) (by simp; omega)
      rw [show idx + 1 + j = idx + (j + 1) by omega]
      exact this
    simp only [runChunks, hS, if_true, hF0, Bool.false_eq_true, if_false]
    obtain ⟨g1, g2, g3⟩ := ih (idx + 1) _ _ _ hFs
    refine ⟨g1, ?_, ?_⟩
    · rw [g2, List.map_cons, flat, List.append_assoc]
    · rw [g3, droppedLogTotal_append, flat, countBadTs_append]
      have hlen := chunkNewRows_length_add P sid
        (colMapExisting ov (trimmedHeaders headers)) (trimmedHeaders headers) c
      by_cases hlt : (chunkNewRows P sid (colMapExisting ov (trimmedHeaders headers))
          (trimmedHeaders headers) c).length < c.length
      · rw [if_pos hlt, droppedLogTotal_append]
        simp only [droppedLogTotal]
        omega
      · rw [if_neg hlt]
        simp only [droppedLogTotal]
        omega

theorem runChunks_failAt (P : PyVal → Option String) (F : Nat → Bool)
    (ov : Option (List (String × String))) (sid : Int) (headers : List String)
    (hS : (colMapExisting ov (trimmedHeaders headers)).any (fun p => p.2 == "timestamp") = true) :
    ∀ (k : Nat) (chunks : List (List (List PyVal))) (idx total : Nat) (db : List Row)
      (logs : List LogEvent),
      (∀ j, j < k → F (idx + j) = false) → F (idx + k) = true → k < chunks.length →
      (runChunks P F ov sid headers chunks idx total db logs).result =
        Except.error IngestError.persistenceError ∧
      (runChunks P F ov sid headers chunks idx total db logs).db =
        db ++ flat ((chunks.take k).map (chunkNewRows P sid
          (colMapExisting ov (trimmedHeaders headers)) (trimmedHeaders headers))) ∧
      (runChunks P F ov sid headers chunks idx total db logs).connOpen = true := by
  intro k
  induction k with
  | zero =>
    intro chunks idx total db logs hjlt hk hklen
    cases chunks with
    | nil => simp at hklen
    | cons c rest =>
      have hFidx : F idx = true := by simpa using hk
      simp only [runChunks, hS, if_true, hFidx]
      simp [flat]
  | succ k ih =>
    intro chunks idx total db logs hjlt hk hklen
    cases chunks with
    | nil => simp at hklen
    | cons c rest =>
      have hF0 : F idx = false := by
        have := hjlt 0 (by omega)
        simpa using this
      simp only [runChunks, hS, if_true, hF0, Bool.false_eq_true, if_false]
      have hjlt2 : ∀ j, j < k → F (idx + 1 + j) = false := by
        intro j hj
        have := hjlt (j + 1) (by omega)
        rw [show idx + 1 + j = idx + (j + 1) by omega]
        exact this
      have hk2 : F (idx + 1 + k) = true := by
        rw [show idx + 1 + k = idx + (k + 1) by omega]
        exact hk
      have hklen2 : k < rest.length := by
        simp only [List.length_cons] at hklen
        omega
      obtain ⟨g1, g2, g3⟩ := ih rest (idx + 1) _ _ _ hjlt2 hk2 hklen2
      refine ⟨g1, ?_, g3⟩
      rw [g2, List.take_succ_cons, List.map_cons, flat, List.append_assoc]

theorem runChunks_connOpen (P : PyVal → Option String) (F : Nat → Bool)
    (ov : Option (List (String × String))) (sid : Int) (headers : List String) :
    ∀ (chunks : List (List (List PyVal))) (idx total : Nat) (db : List Row)
      (logs : List LogEvent),
      ((runChunks P F ov sid headers chunks idx total db logs).connOpen = true ↔
        ((runChunks P F ov sid headers chunks idx total db logs).result =
            Except.error IngestError.schemaError ∨
         (runChunks P F ov sid headers chunks idx total db logs).result =
            Except.error IngestError.persistenceError)) := by
  intro chunks
  induction chunks with
  | nil =>
    intro idx total db logs
    simp [runChunks]
  | cons c rest ih =>
    intro idx total db logs
    cases hSc : (colMapExisting ov (trimmedHeaders headers)).any (fun p => p.2 == "timestamp") with
    | false => simp [runChunks, hSc]
    | true =>
      cases hF : F idx with
      | true => simp [runChunks, hSc, hF]
      | false =>
        simp only [runChunks, hSc, if_true, hF, Bool.false_eq_true, if_false]
        exact ih _ _ _ _

/-! ### Concrete instantiations used by counterexamples and witnesses -/

/-- A datetime parser accepting every cell (returns a fixed formatted stamp). -/
def tsAlways : PyVal → Option String := fun _ => some "2024-01-01 00:00:00"

/-- A storage layer that never fails. -/
def noFail : Nat → Bool := fun _ => false

/-- A datetime parser rejecting exactly the literal cell `not-a-date`. -/
def tsScenario : PyVal → Option String := fun v =>
  match v with
  | PyVal.pstr s => if s == "not-a-date" then none else some s
  | _ => none

/-- A storage layer failing exactly on the second insertion transaction. -/
def failSecond : Nat → Bool := fun j => j == 1

/-! ### Claim C1 -/

/-- Claim C1, counterexample: a successful concrete run that inserts one row
returns `Except.ok none` — the Python `None`, not the inserted-row count
`some 1`: the source accumulates `total_inserted` but has no `return`
statement. -/
theorem claim_C1_counterexample :
    (ingest_electrical_csv true true tsAlways noFail [] 1 ["timestamp"]
        [[PyVal.pstr "x"]] "timestamp" none 1000).result = Except.ok none ∧
    (ingest_electrical_csv true true tsAlways noFail [] 1 ["timestamp"]
        [[PyVal.pstr "x"]] "timestamp" none 1000).db.length = 1 ∧
    Except.ok (none : Option Nat) ≠
      (Except.ok (some 1) : Except IngestError (Option Nat)) := by
  refine ⟨by decide, by decide, by decide⟩

/-- Claim C1, amended: on every successful run the total count of
successfully inserted rows is reported in the final diagnostic message
(`finished` carries exactly the number of rows added to the table), while the
value returned to the caller is the absent value `None`, not that count. -/
theorem claim_C1 (P : PyVal → Option String) (F : Nat → Bool) (db0 : List Row)
    (sid : Int) (headers : List String) (rows : List (List PyVal)) (tc : String)
    (ov : Option (List (String × String))) (n : Nat) (v : Option Nat)
    (h : (ingest_electrical_csv true true P F db0 sid headers rows tc ov n).result =
      Except.ok v) :
    v = none ∧
    (ingest_electrical_csv true true P F db0 sid headers rows tc ov n).logs.getLast? =
      some (LogEvent.finished
        ((ingest_electrical_csv true true P F db0 sid headers rows tc ov n).db.length -
          db0.length)) := by
  simp only [ingest_electrical_csv, Bool.true_eq_false, if_false] at h ⊢
  obtain ⟨h1, _, h3⟩ := runChunks_ok_char P F ov sid headers (chunkList n rows) 0 0 db0 [] v h
  refine ⟨h1, ?_⟩
  rw [h3]
  simp

/-- Claim C1, witness for the amended theorem at a concrete successful run. -/
theorem claim_C1_witness :
    (none : Option Nat) = none ∧
    (ingest_electrical_csv true true tsAlways noFail [] 1 ["timestamp"]
        [[PyVal.pstr "x"]] "timestamp" none 1000).logs.getLast? =
      some (LogEvent.finished
        ((ingest_electrical_csv true true tsAlways noFail [] 1 ["timestamp"]
            [[PyVal.pstr "x"]] "timestamp" none 1000).db.length -
          List.length ([] : List Row))) :=
  claim_C1 tsAlways noFail [] 1 ["timestamp"] [[PyVal.pstr "x"]] "timestamp" none 1000
    none (by decide)

/-! ### Claim C2 -/

/-- Claim C2: if the `k`-th insertion transaction is the first to fail, the
run raises the PersistenceError (the wrapped RuntimeError), the failed
chunk's rows are rolled back — the table holds exactly the prior rows plus
the rows of the chunks committed before the failure — and there is no global
rollback. -/
theorem claim_C2 (P : PyVal → Option String) (F : Nat → Bool) (db0 : List Row)
    (sid : Int) (headers : List String) (rows : List (List PyVal)) (tc : String)
    (ov : Option (List (String × String))) (n k : Nat)
    (hS : (colMapExisting ov (trimmedHeaders headers)).any
      (fun p => p.2 == "timestamp") = true)
    (hjlt : ∀ j, j < k → F j = false) (hk : F k = true)
    (hklen : k < (chunkList n rows).length) :
    (ingest_electrical_csv true true P F db0 sid headers rows tc ov n).result =
      Except.error IngestError.persistenceError ∧
    (ingest_electrical_csv true true P F db0 sid headers rows tc ov n).db =
      db0 ++ flat (((chunkList n rows).take k).map (chunkNewRows P sid
        (colMapExisting ov (trimmedHeaders headers)) (trimmedHeaders headers))) := by
  simp only [ingest_electrical_csv, Bool.true_eq_false, if_false]
  obtain ⟨g1, g2, _⟩ := runChunks_failAt P F ov sid headers hS k (chunkList n rows)
    0 0 db0 [] (by simpa using hjlt) (by simpa using hk) hklen
  exact ⟨g1, g2⟩

/-- Claim C2, witness: the spec's scenario — 5 rows, chunk size 2, the
storage failing on the second transaction: the first chunk's 2 rows stay
committed and the PersistenceError is raised. -/
theorem claim_C2_witness :
    (ingest_electrical_csv true true tsAlways failSecond [] 7 ["timestamp"]
        [[PyVal.pstr "a"], [PyVal.pstr "b"], [PyVal.pstr "c"], [PyVal.pstr "d"],
         [PyVal.pstr "e"]] "timestamp" none 2).result =
      Except.error IngestError.persistenceError ∧
    (ingest_electrical_csv true true tsAlways failSecond [] 7 ["timestamp"]
        [[PyVal.pstr "a"], [PyVal.pstr "b"], [PyVal.pstr "c"], [PyVal.pstr "d"],
         [PyVal.pstr "e"]] "timestamp" none 2).db =
      [] ++ flat (((chunkList 2 [[PyVal.pstr "a"], [PyVal.pstr "b"], [PyVal.pstr "c"],
        [PyVal.pstr "d"], [PyVal.pstr "e"]]).take 1).map (chunkNewRows tsAlways 7
          (colMapExisting none (trimmedHeaders ["timestamp"]))
          (trimmedHeaders ["timestamp"]))) :=
  claim_C2 tsAlways failSecond [] 7 ["timestamp"]
    [[PyVal.pstr "a"], [PyVal.pstr "b"], [PyVal.pstr "c"], [PyVal.pstr "d"],
     [PyVal.pstr "e"]] "timestamp" none 2 1
    (by decide) (by decide) (by decide) (by decide)

/-! ### Claim C3 -/

theorem newRows_flat_length (P : PyVal → Option String) (sid : Int)
    (cm : List (String × String)) (hs : List String) :
    ∀ chunks : List (List (List PyVal)),
      (flat (chunks.map (chunkNewRows P sid cm hs))).length +
        countBadTs P cm hs (flat chunks) = (flat chunks).length := by
  intro chunks
  induction chunks with
  | nil => rfl
  | cons c rest ih =>
    simp only [List.map_cons, flat, List.length_append, countBadTs_append]
    have := chunkNewRows_length_add P sid cm hs c
    omega

/-- Claim C3: in a run where a timestamp column resolves and the storage
layer never fails, the run succeeds, the number of persisted rows equals the
number of input rows minus the number of rows whose timestamp fails to
parse, and exactly that many dropped rows are reported in the diagnostic
output — dropping rows is never an error. -/
theorem claim_C3 (P : PyVal → Option String) (F : Nat → Bool) (db0 : List Row)
    (sid : Int) (headers : List String) (rows : List (List PyVal)) (tc : String)
    (ov : Option (List (String × String))) (n : Nat)
    (hn : 0 < n)
    (hS : (colMapExisting ov (trimmedHeaders headers)).any
      (fun p => p.2 == "timestamp") = true)
    (hF : ∀ j, F j = false) :
    (ingest_electrical_csv true true P F db0 sid headers rows tc ov n).result =
      Except.ok none ∧
    (ingest_electrical_csv true true P F db0 sid headers rows tc ov n).db.length =
      db0.length + (rows.length - countBadTs P
        (colMapExisting ov (trimmedHeaders headers)) (trimmedHeaders headers) rows) ∧
    droppedLogTotal
        (ingest_electrical_csv true true P F db0 sid headers rows tc ov n).logs =
      countBadTs P (colMapExisting ov (trimmedHeaders headers))
        (trimmedHeaders headers) rows := by
  simp only [ingest_electrical_csv, Bool.true_eq_false, if_false]
  obtain ⟨g1, g2, g3⟩ := runChunks_success P F ov sid headers hS (chunkList n rows)
    0 0 db0 [] (fun j _ => hF (0 + j))
  have hflat := flat_chunkList n hn rows
  have hcnt := newRows_flat_length P sid (colMapExisting ov (trimmedHeaders headers))
    (trimmedHeaders headers) (chunkList n rows)
  rw [hflat] at hcnt g3
  refine ⟨g1, ?_, ?_⟩
  · rw [g2, List.length_append]
    omega
  · rw [g3]
    simp [droppedLogTotal]

/-- Claim C3, witness: the spec's scenario — headers `datetime,power,voltage`
and 3 rows, one with an unparseable timestamp: the run succeeds with 2 rows
persisted and 1 reported drop. -/
theorem claim_C3_witness :
    ((ingest_electrical_csv true true tsScenario noFail [] 7
        ["datetime", "power", "voltage"]
        [[PyVal.pstr "2025-01-01 00:00:00", PyVal.pstr "1.0", PyVal.pstr "230"],
         [PyVal.pstr "not-a-date", PyVal.pstr "2.0", PyVal.pstr "231"],
         [PyVal.pstr "2025-01-01 00:10:00", PyVal.pstr "3.0", PyVal.pstr "229"]]
        "timestamp" none 1000).result = Except.ok none ∧
    (ingest_electrical_csv true true tsScenario noFail [] 7
        ["datetime", "power", "voltage"]
        [[PyVal.pstr "2025-01-01 00:00:00", PyVal.pstr "1.0", PyVal.pstr "230"],
         [PyVal.pstr "not-a-date", PyVal.pstr "2.0", PyVal.pstr "231"],
         [PyVal.pstr "2025-01-01 00:10:00", PyVal.pstr "3.0", PyVal.pstr "229"]]
        "timestamp" none 1000).db.length =
      List.length ([] : List Row) +
        (3 - countBadTs tsScenario
          (colMapExisting none (trimmedHeaders ["datetime", "power", "voltage"]))
          (trimmedHeaders ["datetime", "power", "voltage"])
          [[PyVal.pstr "2025-01-01 00:00:00", PyVal.pstr "1.0", PyVal.pstr "230"],
           [PyVal.pstr "not-a-date", PyVal.pstr "2.0", PyVal.pstr "231"],
           [PyVal.pstr "2025-01-01 00:10:00", PyVal.pstr "3.0", PyVal.pstr "229"]]) ∧
    droppedLogTotal (ingest_electrical_csv true true tsScenario noFail [] 7
        ["datetime", "power", "voltage"]
        [[PyVal.pstr "2025-01-01 00:00:00", PyVal.pstr "1.0", PyVal.pstr "230"],
         [PyVal.pstr "not-a-date", PyVal.pstr "2.0", PyVal.pstr "231"],
         [PyVal.pstr "2025-01-01 00:10:00", PyVal.pstr "3.0", PyVal.pstr "229"]]
        "timestamp" none 1000).logs =
      countBadTs tsScenario
        (colMapExisting none (trimmedHeaders ["datetime", "power", "voltage"]))
        (trimmedHeaders ["datetime", "power", "voltage"])
        [[PyVal.pstr "2025-01-01 00:00:00", PyVal.pstr "1.0", PyVal.pstr "230"],
         [PyVal.pstr "not-a-date", PyVal.pstr "2.0", PyVal.pstr "231"],
         [PyVal.pstr "2025-01-01 00:10:00", PyVal.pstr "3.0", PyVal.pstr "229"]]) :=
  claim_C3 tsScenario noFail [] 7 ["datetime", "power", "voltage"]
    [[PyVal.pstr "2025-01-01 00:00:00", PyVal.pstr "1.0", PyVal.pstr "230"],
     [PyVal.pstr "not-a-date", PyVal.pstr "2.0", PyVal.pstr "231"],
     [PyVal.pstr "2025-01-01 00:10:00", PyVal.pstr "3.0", PyVal.pstr "229"]]
    "timestamp" none 1000 (by decide) (by decide) (fun j => rfl)

/-! ### Claim C4 -/

/-- Claim C4, counterexample: a file with a header row that resolves to no
timestamp column but with no data row yields no chunk, so the run completes
successfully — no SchemaError is raised (the check lives inside the chunk
loop), contradicting the claim's universal statement over input files. -/
theorem claim_C4_counterexample :
    (colMapExisting none (trimmedHeaders ["foo"])).any
      (fun p => p.2 == "timestamp") = false ∧
    (ingest_electrical_csv true true tsAlways noFail [] 1 ["foo"] [] "timestamp"
      none 1000).result = Except.ok none ∧
    (ingest_electrical_csv true true tsAlways noFail [] 1 ["foo"] [] "timestamp"
      none 1000).result ≠ Except.error IngestError.schemaError := by
  refine ⟨by decide, by decide, by decide⟩

/-- Claim C4, amended: for every input file with at least one data row in
which no header resolves to the timestamp attribute, ingestion raises the
SchemaError on the first chunk, with no row inserted and no diagnostic
output produced before the failure. -/
theorem claim_C4 (P : PyVal → Option String) (F : Nat → Bool) (db0 : List Row)
    (sid : Int) (headers : List String) (rows : List (List PyVal)) (tc : String)
    (ov : Option (List (String × String))) (n : Nat)
    (hrows : rows ≠ []) (hn : 0 < n)
    (hnots : (colMapExisting ov (trimmedHeaders headers)).any
      (fun p => p.2 == "timestamp") = false) :
    (ingest_electrical_csv true true P F db0 sid headers rows tc ov n).result =
      Except.error IngestError.schemaError ∧
    (ingest_electrical_csv true true P F db0 sid headers rows tc ov n).db = db0 ∧
    (ingest_electrical_csv true true P F db0 sid headers rows tc ov n).logs = [] := by
  simp only [ingest_electrical_csv, Bool.true_eq_false, if_false]
  rw [chunkList_cons n rows hn hrows]
  simp only [runChunks, hnots, Bool.false_eq_true, if_false]
  exact ⟨trivial, trivial, trivial⟩

/-- Claim C4, witness for the amended theorem: one data row under an
unrecognised header. -/
theorem claim_C4_witness :
    (ingest_electrical_csv true true tsAlways noFail [] 1 ["foo"]
      [[PyVal.pstr "1"]] "timestamp" none 1000).result =
        Except.error IngestError.schemaError ∧
    (ingest_electrical_csv true true tsAlways noFail [] 1 ["foo"]
      [[PyVal.pstr "1"]] "timestamp" none 1000).db = [] ∧
    (ingest_electrical_csv true true tsAlways noFail [] 1 ["foo"]
      [[PyVal.pstr "1"]] "timestamp" none 1000).logs = [] :=
  claim_C4 tsAlways noFail [] 1 ["foo"] [[PyVal.pstr "1"]] "timestamp" none 1000
    (by decide) (by decide) (by decide)

/-! ### Claim C7 -/

/-- Claim C7, counterexample: on a run whose first insertion transaction
fails, the PersistenceError propagates and the connection is still open at
the end of the operation — `conn.close()` is only reached on the success
path — contradicting the claimed unconditional release. -/
theorem claim_C7_counterexample :
    (ingest_electrical_csv true true tsAlways (fun _ => true) [] 1 ["timestamp"]
      [[PyVal.pstr "x"]] "timestamp" none 1000).result =
        Except.error IngestError.persistenceError ∧
    (ingest_electrical_csv true true tsAlways (fun _ => true) [] 1 ["timestamp"]
      [[PyVal.pstr "x"]] "timestamp" none 1000).connOpen = true := by
  refine ⟨by decide, by decide⟩

set_option linter.unusedVariables false in
/-- Claim C7, amended: the storage connection is closed at the end of the
operation exactly when the run does not raise after opening it: it is closed
on success (and trivially when pandas or the file is missing, before any
connection is opened), and left open exactly when a SchemaError or
PersistenceError propagates. -/
theorem claim_C7 (pA cE : Bool) (P : PyVal → Option String) (F : Nat → Bool)
    (db0 : List Row) (sid : Int) (headers : List String) (rows : List (List PyVal))
    (tc : String) (ov : Option (List (String × String))) (n : Nat) (hn : 0 < n) :
    (ingest_electrical_csv pA cE P F db0 sid headers rows tc ov n).connOpen = true ↔
      ((ingest_electrical_csv pA cE P F db0 sid headers rows tc ov n).result =
          Except.error IngestError.schemaError ∨
       (ingest_electrical_csv pA cE P F db0 sid headers rows tc ov n).result =
          Except.error IngestError.persistenceError) := by
  cases pA with
  | false => simp [ingest_electrical_csv]
  | true =>
    cases cE with
    | false => simp [ingest_electrical_csv]
    | true =>
      simp only [ingest_electrical_csv, Bool.true_eq_false, if_false]
      exact runChunks_connOpen P F ov sid headers (chunkList n rows) 0 0 db0 []

/-- Claim C7, witness for the amended theorem at a concrete failing run. -/
theorem claim_C7_witness :
    (ingest_electrical_csv true true tsAlways (fun _ => true) [] 2 ["timestamp"]
        [[PyVal.pstr "x"]] "timestamp" none 1000).connOpen = true ↔
      ((ingest_electrical_csv true true tsAlways (fun _ => true) [] 2 ["timestamp"]
          [[PyVal.pstr "x"]] "timestamp" none 1000).result =
            Except.error IngestError.schemaError ∨
       (ingest_electrical_csv true true tsAlways (fun _ => true) [] 2 ["timestamp"]
          [[PyVal.pstr "x"]] "timestamp" none 1000).result =
            Except.error IngestError.persistenceError) :=
  claim_C7 true true tsAlways (fun _ => true) [] 2 ["timestamp"] [[PyVal.pstr "x"]]
    "timestamp" none 1000 (by decide)

/-! ### Claim C8 -/

/-- Claim C8: `_safe_str` maps the absent input to the absent value, maps a
string that is empty after stripping whitespace to the absent value, and
otherwise returns the stripped string. -/
theorem claim_C8 :
    _safe_str PyVal.pnone = none ∧
    ∀ s : String, _safe_str (PyVal.pstr s) =
      if pyStrip s = "" then none else some (pyStrip s) := by
  refine ⟨rfl, ?_⟩
  intro s
  by_cases h : pyStrip s = ""
  · simp [_safe_str, pyStr, h]
  · simp [_safe_str, pyStr, h]

/-! ### Claim C9 -/

/-- Claim C9: two calls to `ingest_electrical_csv` that differ only in the
`timestamp_col` argument have identical observable behaviour — result,
persisted rows, connection state and diagnostics — because the parameter is
never read. -/
theorem claim_C9 (pA cE : Bool) (P : PyVal → Option String) (F : Nat → Bool)
    (db0 : List Row) (sid : Int) (headers : List String) (rows : List (List PyVal))
    (tc1 tc2 : String) (ov : Option (List (String × String))) (n : Nat) :
    ingest_electrical_csv pA cE P F db0 sid headers rows tc1 ov n =
    ingest_electrical_csv pA cE P F db0 sid headers rows tc2 ov n := rfl

/-! ### Claim C10 -/

/-- Claim C10: a float input is returned by `_safe_float` unchanged — the
`isinstance(x, float)` branch fires before the sentinel filtering and the
string parsing — and in particular the float NaN used by pandas for a
missing numeric cell is returned as NaN, not converted to the absent
value. -/
theorem claim_C10 :
    (∀ f : PFloat, _safe_float (PyVal.pfloat f) = some f) ∧
    _safe_float (PyVal.pfloat PFloat.nan) = some PFloat.nan ∧
    _safe_float (PyVal.pfloat PFloat.nan) ≠ none :=
  ⟨fun _ => rfl, rfl, by decide⟩

/-! ### Character and parsing lemmas for claim C5 -/

theorem isDigitC_elim {c : Char} (h : isDigitC c = true) :
    c = '0' ∨ c = '1' ∨ c = '2' ∨ c = '3' ∨ c = '4' ∨ c = '5' ∨ c = '6' ∨
      c = '7' ∨ c = '8' ∨ c = '9' := by
  have h2 := h
  simp only [isDigitC, Bool.or_eq_true, beq_iff_eq] at h2
  tauto

theorem digit_lowerChar {c : Char} (h : isDigitC c = true) : lowerChar c = c := by
  rcases isDigitC_elim h with h|h|h|h|h|h|h|h|h|h <;> subst h <;> decide

theorem digit_not_ws {c : Char} (h : isDigitC c = true) : isWsC c = false := by
  rcases isDigitC_elim h with h|h|h|h|h|h|h|h|h|h <;> subst h <;> decide

theorem digit_comma_map {c : Char} (h : isDigitC c = true) :
    (if c = ',' then '.' else c) = c := by
  rcases isDigitC_elim h with h|h|h|h|h|h|h|h|h|h <;> subst h <;> decide

theorem digit_ne {c : Char} (h : isDigitC c = true) :
    c ≠ '-' ∧ c ≠ '+' ∧ c ≠ 'i' ∧ c ≠ 'n' := by
  rcases isDigitC_elim h with h|h|h|h|h|h|h|h|h|h <;> subst h <;> decide

theorem map_comma_digits (l : List Char) (h : l.all isDigitC = true) :
    l.map (fun c => if c = ',' then '.' else c) = l := by
  induction l with
  | nil => rfl
  | cons a t ih =>
    simp only [List.all_cons, Bool.and_eq_true] at h
    simp [digit_comma_map h.1, ih h.2]

theorem dropWhile_head_false {p : Char → Bool} :
    ∀ (l : List Char) (c : Char) (r : List Char), l.dropWhile p = c :: r → p c = false := by
  intro l
  induction l with
  | nil => intro c r h; cases h
  | cons a t ih =>
    intro c r h
    by_cases hp : p a = true
    · rw [List.dropWhile_cons_of_pos hp] at h
      exact ih c r h
    · rw [List.dropWhile_cons_of_neg hp] at h
      injection h with h1 _
      subst h1
      simpa using hp

theorem all_getLast {p : Char → Bool} {l : List Char} {c : Char}
    (hall : l.all p = true) (h : l.getLast? = some c) : p c = true := by
  have hm : c ∈ l := by
    obtain ⟨hne, heq⟩ := List.mem_getLast?_eq_getLast (l := l) (x := c) h
    subst heq
    exact List.getLast_mem hne
  exact List.all_eq_true.mp hall c hm

theorem exists_getLast {l : List Char} (h : l ≠ []) : ∃ c, l.getLast? = some c := by
  cases l with
  | nil => exact absurd rfl h
  | cons a t => exact ⟨(a :: t).getLast (List.cons_ne_nil a t), List.getLast?_eq_getLast _ _⟩

theorem sentinel_cond_false (t : List Char) (d : Char) (hd : d ∈ t)
    (hdig : isDigitC d = true) :
    (((⟨t⟩ : String) == "") = false) ∧ ((lowerStr ⟨t⟩ == "nan") = false) ∧
    ((lowerStr ⟨t⟩ == "none") = false) ∧ ((lowerStr ⟨t⟩ == "null") = false) := by
  have hmem : ∀ (w : List Char), (∀ c ∈ w, isDigitC c = false) →
      lowerStr ⟨t⟩ ≠ ⟨w⟩ := by
    intro w hw hEq
    have hdata : t.map lowerChar = w := congrArg String.data hEq
    have : lowerChar d ∈ w := hdata ▸ List.mem_map_of_mem lowerChar hd
    rw [digit_lowerChar hdig] at this
    exact absurd hdig (by simp [hw d this])
  refine ⟨?_, ?_, ?_, ?_⟩
  · rw [beq_eq_false_iff_ne]
    intro hEq
    have : t = [] := congrArg String.data hEq
    subst this
    cases hd
  · rw [beq_eq_false_iff_ne]
    exact hmem "nan".data (by decide)
  · rw [beq_eq_false_iff_ne]
    exact hmem "none".data (by decide)
  · rw [beq_eq_false_iff_ne]
    exact hmem "null".data (by decide)

theorem parseMantissa_digits (ip : List Char) (h1 : ip ≠ []) (h2 : ip.all isDigitC = true) :
    parseMantissa ip = some ((digitsToNat ip : ℚ), []) := by
  cases ip with
  | nil => exact absurd rfl h1
  | cons a t =>
    simp only [parseMantissa, takeWhile_all _ _ h2, dropWhile_all _ _ h2]
    simp

theorem parseMantissa_sep (ip fp : List Char) (h2 : ip.all isDigitC = true)
    (h3 : fp ≠ []) (h4 : fp.all isDigitC = true) :
    parseMantissa (ip ++ '.' :: fp) =
      some ((digitsToNat ip : ℚ) + (digitsToNat fp : ℚ) / (10 : ℚ) ^ fp.length, []) := by
  cases fp with
  | nil => exact absurd rfl h3
  | cons b fr =>
    simp only [parseMantissa, takeWhile_append_all _ _ _ h2, dropWhile_append_all _ _ _ h2]
    rw [List.takeWhile_cons_of_neg (by decide), List.dropWhile_cons_of_neg (by decide)]
    simp only [List.head?_cons, List.tail_cons, takeWhile_all _ _ h4, dropWhile_all _ _ h4]
    simp

theorem beq_some_false {a b : Char} (h : a ≠ b) : (some a == some b) = false := by
  rw [beq_eq_false_iff_ne]
  intro hEq
  injection hEq with hEq
  exact h hEq

theorem map_lower_ne_word (u : List Char) (d0 : Char) (hu : u = d0 :: u.tail)
    (hd0 : isDigitC d0 = true) (w : List Char) (c0 : Char) (hw : w = c0 :: w.tail)
    (hne : d0 ≠ c0) : (u.map lowerChar == w) = false := by
  rw [beq_eq_false_iff_ne]
  rw [hu, hw]
  intro hEq
  simp only [List.map_cons] at hEq
  have h1 : lowerChar d0 = c0 := by
    have := congrArg List.head? hEq
    simpa using this
  rw [digit_lowerChar hd0] at h1
  exact hne h1

theorem pyFloatParseChars_pos (u : List Char) (m : ℚ) (d0 : Char)
    (hh : u.head? = some d0) (hd0 : isDigitC d0 = true)
    (hlast : ∃ d, u.getLast? = some d ∧ isDigitC d = true)
    (hmant : parseMantissa u = some (m, [])) :
    pyFloatParseChars u = some (PFloat.val m) := by
  obtain ⟨dl, hl, hdl⟩ := hlast
  have hu : u = d0 :: u.tail := List.eq_cons_of_mem_head? hh
  have htrim : trimChars u = u := by
    apply trimChars_eq_self
    · intro c hc
      rw [hh] at hc
      injection hc with hc
      subst hc
      exact digit_not_ws hd0
    · intro c hc
      rw [hl] at hc
      injection hc with hc
      subst hc
      exact digit_not_ws hdl
  have hinf := map_lower_ne_word u d0 hu hd0 "inf".data 'i' rfl (digit_ne hd0).2.2.1
  have hinfy := map_lower_ne_word u d0 hu hd0 "infinity".data 'i' rfl (digit_ne hd0).2.2.1
  have hnan := map_lower_ne_word u d0 hu hd0 "nan".data 'n' rfl (digit_ne hd0).2.2.2
  have hm1 := beq_some_false (digit_ne hd0).1
  have hp1 := beq_some_false (digit_ne hd0).2.1
  simp only [pyFloatParseChars, htrim, hh, hm1, hp1, Bool.or_self, Bool.false_eq_true,
    if_false, hinf, hinfy, hnan, hmant]

theorem pyFloatParseChars_neg (u : List Char) (m : ℚ) (d0 : Char)
    (hh : u.head? = some d0) (hd0 : isDigitC d0 = true)
    (hlast : ∃ d, u.getLast? = some d ∧ isDigitC d = true)
    (hmant : parseMantissa u = some (m, [])) :
    pyFloatParseChars ('-' :: u) = some (PFloat.val (-m)) := by
  obtain ⟨dl, hl, hdl⟩ := hlast
  have hu : u = d0 :: u.tail := List.eq_cons_of_mem_head? hh
  have hune : u ≠ [] := by rw [hu]; exact List.cons_ne_nil _ _
  have htrim : trimChars ('-' :: u) = '-' :: u := by
    apply trimChars_eq_self
    · intro c hc
      simp only [List.head?_cons] at hc
      injection hc with hc
      subst hc
      decide
    · intro c hc
      rw [show ('-' :: u) = ['-'] ++ u from rfl,
        List.getLast?_append_of_ne_nil _ hune, hl] at hc
      injection hc with hc
      subst hc
      exact digit_not_ws hdl
  have hinf := map_lower_ne_word u d0 hu hd0 "inf".data 'i' rfl (digit_ne hd0).2.2.1
  have hinfy := map_lower_ne_word u d0 hu hd0 "infinity".data 'i' rfl (digit_ne hd0).2.2.1
  have hnan := map_lower_ne_word u d0 hu hd0 "nan".data 'n' rfl (digit_ne hd0).2.2.2
  simp only [pyFloatParseChars, htrim, List.head?_cons, beq_self_eq_true, Bool.true_or,
    if_true, List.tail_cons, hinf, hinfy, hnan, Bool.or_self, Bool.false_eq_true,
    if_false, hmant]

theorem safeFloat_shape_core (u : List Char)
    (h : (!(u.takeWhile isDigitC).isEmpty &&
      ((u.dropWhile isDigitC).isEmpty ||
        (((u.dropWhile isDigitC).head? == some '.' ||
            (u.dropWhile isDigitC).head? == some ',') &&
          !(u.dropWhile isDigitC).tail.isEmpty &&
          (u.dropWhile isDigitC).tail.all isDigitC))) = true) :
    ∃ d0, (u.map (fun c => if c = ',' then '.' else c)).head? = some d0 ∧
      isDigitC d0 = true ∧ d0 ∈ u ∧
      (∃ d, (u.map (fun c => if c = ',' then '.' else c)).getLast? = some d ∧
        isDigitC d = true) ∧
      parseMantissa (u.map (fun c => if c = ',' then '.' else c)) =
        some ((digitsToNat (u.takeWhile isDigitC) : ℚ) +
          (digitsToNat (u.dropWhile isDigitC).tail : ℚ) /
            (10 : ℚ) ^ (u.dropWhile isDigitC).tail.length, []) := by
  set ip := u.takeWhile isDigitC with hipdef
  set r1 := u.dropWhile isDigitC with hr1def
  set fp := r1.tail with hfpdef
  rw [Bool.and_eq_true] at h
  obtain ⟨h1, h2⟩ := h
  have hipne : ip ≠ [] := by
    intro hEq
    rw [hEq] at h1
    simp at h1
  have hipd : ip.all isDigitC = true := List.all_takeWhile
  have hsplit : ip ++ r1 = u := List.takeWhile_append_dropWhile isDigitC u
  obtain ⟨d0, ipt, hip⟩ : ∃ d0 ipt, ip = d0 :: ipt := by
    cases hc : ip with
    | nil => exact absurd hc hipne
    | cons a b => exact ⟨a, b, rfl⟩
  have hd0 : isDigitC d0 = true := by
    have h3 := hipd
    rw [hip] at h3
    simp only [List.all_cons, Bool.and_eq_true] at h3
    exact h3.1
  have hmem : d0 ∈ u := by
    rw [← hsplit, hip]
    exact List.mem_append_left _ (List.mem_cons_self d0 ipt)
  have hmapip : ip.map (fun c => if c = ',' then '.' else c) = ip :=
    map_comma_digits _ hipd
  rw [Bool.or_eq_true] at h2
  rcases h2 with h2 | h2
  · -- no fractional part: the whole of u is digits
    have hr1 : r1 = [] := by
      cases hc : r1 with
      | nil => rfl
      | cons a b => rw [hc] at h2; simp at h2
    have huEq : u = d0 :: ipt := by rw [← hsplit, hip, hr1, List.append_nil]
    have hune : u ≠ [] := by rw [huEq]; exact List.cons_ne_nil _ _
    have huip : ip = u := by rw [← hsplit, hr1, List.append_nil]
    have hud : u.all isDigitC = true := by rw [← huip]; exact hipd
    have hmapu : u.map (fun c => if c = ',' then '.' else c) = u :=
      map_comma_digits _ hud
    refine ⟨d0, ?_, hd0, hmem, ?_, ?_⟩
    · rw [hmapu, huEq]
      rfl
    · rw [hmapu]
      obtain ⟨dl, hdl⟩ := exists_getLast hune
      exact ⟨dl, hdl, all_getLast hud hdl⟩
    · rw [hmapu, hfpdef, hr1, huip, parseMantissa_digits u hune hud]
      simp [digitsToNat]
  · -- a separator followed by a nonempty digit run
    rw [Bool.and_eq_true, Bool.and_eq_true] at h2
    obtain ⟨⟨hsep, hfpne⟩, hrest⟩ := h2
    have hfpne2 : fp ≠ [] := by
      intro hEq
      rw [hEq] at hfpne
      simp at hfpne
    obtain ⟨sep, hsepeq, hsepval⟩ : ∃ sep, r1.head? = some sep ∧
        (sep = '.' ∨ sep = ',') := by
      rw [Bool.or_eq_true] at hsep
      rcases hsep with hs | hs
      · exact ⟨'.', beq_iff_eq.mp hs, Or.inl rfl⟩
      · exact ⟨',', beq_iff_eq.mp hs, Or.inr rfl⟩
    have hr1 : r1 = sep :: fp := List.eq_cons_of_mem_head? hsepeq
    have hmapsep : (if sep = ',' then '.' else sep) = '.' := by
      rcases hsepval with hsv | hsv <;> subst hsv <;> decide
    have hmapfp : fp.map (fun c => if c = ',' then '.' else c) = fp :=
      map_comma_digits _ hrest
    have hmapu : u.map (fun c => if c = ',' then '.' else c) = ip ++ '.' :: fp := by
      rw [← hsplit, List.map_append, hmapip, hr1, List.map_cons, hmapsep, hmapfp]
    refine ⟨d0, ?_, hd0, hmem, ?_, ?_⟩
    · rw [hmapu, hip]
      rfl
    · rw [hmapu]
      obtain ⟨dl, hdl⟩ := exists_getLast hfpne2
      refine ⟨dl, ?_, all_getLast hrest hdl⟩
      rw [List.getLast?_append_of_ne_nil _ (List.cons_ne_nil _ _),
        show ('.' :: fp) = ['.'] ++ fp from rfl,
        List.getLast?_append_of_ne_nil _ hfpne2]
      exact hdl
    · rw [hmapu]
      exact parseMantissa_sep _ _ hipd hfpne2 hrest

/-! ### Claim C5 -/

/-- Claim C5, counterexample: the string `1e5` is not a sentinel and does not
match the decimal-number shape of the claim, yet `_safe_float` does not map
it to the absent value — Python's `float` also accepts scientific notation
(and inf/nan spellings), so "any other value yields the absent value" is
false as stated. -/
theorem claim_C5_counterexample :
    decimalShape "1e5" = false ∧
    pyStrip "1e5" ≠ "" ∧
    lowerStr (pyStrip "1e5") ≠ "nan" ∧
    lowerStr (pyStrip "1e5") ≠ "none" ∧
    lowerStr (pyStrip "1e5") ≠ "null" ∧
    (_safe_float (PyVal.pstr "1e5")).isSome = true := by
  refine ⟨by decide, by decide, by decide, by decide, by decide, by decide⟩

/-- Claim C5, amended: `_safe_float` is total; the absent input gives the
absent value; a string that is empty after stripping or a case-insensitive
nan/none/null sentinel gives the absent value; any string the runtime float
parser rejects (after comma normalization) gives the absent value; and every
string matching the decimal-number shape with comma or period separator is
accepted, yielding exactly the denoted real number with the comma read as a
decimal period.  (The parser also accepts shapes beyond the claim's regex,
such as scientific notation — see the counterexample.) -/
theorem claim_C5 :
    _safe_float PyVal.pnone = none ∧
    (∀ s : String, pyStrip s = "" ∨ lowerStr (pyStrip s) = "nan" ∨
        lowerStr (pyStrip s) = "none" ∨ lowerStr (pyStrip s) = "null" →
      _safe_float (PyVal.pstr s) = none) ∧
    (∀ s : String, pyFloatParse (commaToDot (pyStrip s)) = none →
      _safe_float (PyVal.pstr s) = none) ∧
    (∀ s : String, decimalShape s = true →
      _safe_float (PyVal.pstr s) = some (PFloat.val (decimalValue s))) := by
  refine ⟨rfl, ?_, ?_, ?_⟩
  · intro s h
    simp only [_safe_float, pyStr]
    rcases h with h | h | h | h <;> simp [h]
  · intro s h
    simp only [_safe_float, pyStr]
    split
    · rfl
    · exact h
  · intro s hshape
    simp only [decimalShape] at hshape
    simp only [_safe_float, pyStr, pyStrip, commaToDot, pyFloatParse, decimalValue]
    generalize ht : trimChars s.data = t at hshape ⊢
    by_cases hneg : (t.head? == some '-') = true
    · rw [if_pos hneg] at hshape
      have hth : t.head? = some '-' := beq_iff_eq.mp hneg
      have htEq : t = '-' :: t.tail := List.eq_cons_of_mem_head? hth
      set u := t.tail with hu
      obtain ⟨d0, hv0, hd0, hmemu, hlastv, hmant⟩ := safeFloat_shape_core u hshape
      have hmemt : d0 ∈ t := by rw [htEq]; exact List.mem_cons_of_mem _ hmemu
      obtain ⟨c1, c2, c3, c4⟩ := sentinel_cond_false t d0 hmemt hd0
      rw [if_neg (by simp [c1, c2, c3, c4])]
      rw [htEq]
      simp only [List.map_cons, List.head?_cons, List.tail_cons, beq_self_eq_true,
        if_true]
      rw [show (if '-' = ',' then '.' else '-') = '-' by decide]
      exact pyFloatParseChars_neg (u.map (fun c => if c = ',' then '.' else c)) _
        d0 hv0 hd0 hlastv hmant
    · rw [if_neg hneg] at hshape
      have hnegF : (t.head? == some '-') = false := by
        revert hneg
        cases (t.head? == some '-') <;> simp
      obtain ⟨d0, hv0, hd0, hmemu, hlastv, hmant⟩ := safeFloat_shape_core t hshape
      obtain ⟨c1, c2, c3, c4⟩ := sentinel_cond_false t d0 hmemu hd0
      rw [if_neg (by simp [c1, c2, c3, c4])]
      simp only [hnegF, Bool.false_eq_true, if_false]
      exact pyFloatParseChars_pos (t.map (fun c => if c = ',' then '.' else c)) _
        d0 hv0 hd0 hlastv hmant

/-- Claim C5, witness: a negative comma-decimal string, accepted with the
comma read as a decimal period. -/
theorem claim_C5_witness :
    _safe_float (PyVal.pstr " -12,5 ") = some (PFloat.val (decimalValue " -12,5 ")) :=
  claim_C5.2.2.2 " -12,5 " (by decide)

/-! ### Mapping lemmas for claim C6 -/

theorem lowerChar_ne_W (c : Char) : lowerChar c ≠ 'W' := by
  intro h
  unfold lowerChar at h
  cases hf : lowerPairs.find? (fun p => p.1 == c) with
  | none =>
    rw [hf] at h
    subst h
    have h2 := List.find?_eq_none.mp hf ('W', 'w') (by decide)
    simp at h2
  | some q =>
    rw [hf] at h
    have hq : q ∈ lowerPairs := List.mem_of_find?_eq_some hf
    have hall : ∀ r ∈ lowerPairs, r.2 ≠ 'W' := by decide
    exact hall q hq h

theorem no_power_kW (c : String) : "power_kW" ≠ lowerStr c := by
  intro h
  have hW : 'W' ∈ (lowerStr c).data := by
    rw [← h]
    decide
  have : 'W' ∈ c.data.map lowerChar := hW
  obtain ⟨d, _, hd⟩ := List.mem_map.mp this
  exact lowerChar_ne_W d hd

theorem alookup_lower_eq_ciLookup (m : List (String × String))
    (hm : ∀ p ∈ m, lowerStr p.1 = p.1) (c : String) :
    alookup m (lowerStr c) = ciLookup m c := by
  induction m with
  | nil => rfl
  | cons p rest ih =>
    have hp : lowerStr p.1 = p.1 := hm p (List.mem_cons_self p rest)
    simp only [alookup, ciLookup, hp]
    by_cases h : p.1 = lowerStr c
    · rw [if_pos h, if_pos h]
    · rw [if_neg h, if_neg h]
      exact ih (fun q hq => hm q (List.mem_cons_of_mem p hq))

set_option maxHeartbeats 1600000 in
theorem alookup_default_eq_ciLookup (c : String) :
    alookup default_map (lowerStr c) = ciLookup default_map c := by
  have e1 : lowerStr "timestamp" = "timestamp" := by decide
  have e2 : lowerStr "time" = "time" := by decide
  have e3 : lowerStr "datetime" = "datetime" := by decide
  have e4 : lowerStr "power_kw" = "power_kw" := by decide
  have e5 : lowerStr "power_kw_avg" = "power_kw_avg" := by decide
  have e6 : lowerStr "power" = "power" := by decide
  have e7 : lowerStr "power_kW" = "power_kw" := by decide
  have e8 : lowerStr "voltage_v" = "voltage_v" := by decide
  have e9 : lowerStr "voltage" = "voltage" := by decide
  have e10 : lowerStr "current_a" = "current_a" := by decide
  have e11 : lowerStr "current" = "current" := by decide
  have e12 : lowerStr "energy_kwh" = "energy_kwh" := by decide
  have e13 : lowerStr "energy" = "energy" := by decide
  have e14 : lowerStr "status" = "status" := by decide
  simp only [default_map, alookup, ciLookup, e1, e2, e3, e4, e5, e6, e7, e8, e9,
    e10, e11, e12, e13, e14]
  by_cases h1 : "timestamp" = lowerStr c
  · rw [if_pos h1, if_pos h1]
  rw [if_neg h1, if_neg h1]
  by_cases h2 : "time" = lowerStr c
  · rw [if_pos h2, if_pos h2]
  rw [if_neg h2, if_neg h2]
  by_cases h3 : "datetime" = lowerStr c
  · rw [if_pos h3, if_pos h3]
  rw [if_neg h3, if_neg h3]
  by_cases h4 : "power_kw" = lowerStr c
  · rw [if_pos h4, if_pos h4]
  rw [if_neg h4, if_neg h4]
  by_cases h5 : "power_kw_avg" = lowerStr c
  · rw [if_pos h5, if_pos h5]
  rw [if_neg h5, if_neg h5]
  by_cases h6 : "power" = lowerStr c
  · rw [if_pos h6, if_pos h6]
  rw [if_neg h6, if_neg h6]
  rw [if_neg (no_power_kW c), if_neg h4]

theorem resolveHeader_eq_spec (m : List (String × String))
    (hm : ∀ p ∈ m, lowerStr p.1 = p.1) (c : String) :
    resolveHeader (some m) c = resolveHeaderSpec (some m) c := by
  simp only [resolveHeader, resolveHeaderSpec, combinedLookup]
  rw [alookup_lower_eq_ciLookup m hm c]
  cases hov : ciLookup m c with
  | some v => rfl
  | none =>
    have hdef := alookup_default_eq_ciLookup c
    rw [hdef]
    cases hd : ciLookup default_map c with
    | some v => rfl
    | none =>
      have hnone : alookup default_map (lowerStr c) = none := by rw [hdef, hd]
      have hL : lowerStr c ∉ targetCols := by
        intro hmem
        simp only [targetCols, List.mem_cons, List.not_mem_nil, or_false] at hmem
        rcases hmem with h | h | h | h | h | h <;> rw [h] at hnone <;>
          exact absurd hnone (by decide)
      have hR : c ∉ targetCols := by
        intro hmem
        simp only [targetCols, List.mem_cons, List.not_mem_nil, or_false] at hmem
        rcases hmem with h | h | h | h | h | h <;> rw [h] at hd <;>
          exact absurd hd (by decide)
      rw [if_neg hL, if_neg hR]

/-! ### Claim C6 -/

/-- Claim C6, counterexample: an override entry whose key carries an
uppercase letter is never matched, because the code lowercases the header
but looks it up by exact key match — a genuinely case-insensitive lookup
(the spec-side resolution) would resolve the header `Potencia` through the
override `Potencia → power_kw`, yet the code drops it, and an ingestion run
leaves `power_kw` absent although the column held a numeric value. -/
theorem claim_C6_counterexample :
    resolveHeader (some [("Potencia", "power_kw")]) "Potencia" = none ∧
    resolveHeaderSpec (some [("Potencia", "power_kw")]) "Potencia" = some "power_kw" ∧
    ((ingest_electrical_csv true true tsAlways noFail [] 1 ["timestamp", "Potencia"]
        [[PyVal.pstr "t", PyVal.pstr "5"]] "timestamp"
        (some [("Potencia", "power_kw")]) 1000).db.map
      (fun r => r.power_kw.isNone)) = [true] := by
  refine ⟨by decide, by decide, by decide⟩

/-- Claim C6, amended: the header resolution lowercases the trimmed header
and then looks it up by exact match among the mapping keys, with override
entries consulted before defaults; this coincides with the claimed
case-insensitive resolution exactly when every override key is already
lowercase (override keys containing uppercase letters are unreachable);
and any target attribute to which no header resolves is populated with the
absent value — its cells read as `None` and coerce to the absent value, not
to an error. -/
theorem claim_C6 (m : List (String × String)) (hm : ∀ p ∈ m, lowerStr p.1 = p.1) :
    (∀ c, resolveHeader (some m) c = resolveHeaderSpec (some m) c) ∧
    (∀ (colMap : List (String × String)) (hs : List String) (row : List PyVal)
        (t : String), lastSrcFor colMap t = none →
      targetCell colMap hs row t = PyVal.pnone ∧
      _safe_float (targetCell colMap hs row t) = none ∧
      _safe_str (targetCell colMap hs row t) = none) := by
  refine ⟨resolveHeader_eq_spec m hm, ?_⟩
  intro colMap hs row t h
  have hcell : targetCell colMap hs row t = PyVal.pnone := by
    simp [targetCell, h]
  refine ⟨hcell, ?_, ?_⟩ <;> rw [hcell] <;> rfl

/-- Claim C6, witness: with a lowercase override key the code's resolution
and the case-insensitive resolution agree on an uppercase header. -/
theorem claim_C6_witness :
    resolveHeader (some [("potencia", "power_kw")]) "POTENCIA" =
      resolveHeaderSpec (some [("potencia", "power_kw")]) "POTENCIA" :=
  (claim_C6 [("potencia", "power_kw")] (by decide)).1 "POTENCIA"
